import Mathlib

/-!
# Verification of the Finnie orchestration core

A shallow embedding, over `List Char` and `ℚ`, of the Finnie repository's
orchestration core: the intent router (`src/agents/orchestrator.py`), the
compliance filter (`src/agents/compliance.py`), the workflow engine
(`src/graph/workflow.py`) and the portfolio metrics
(`src/agents/portfolio.py`, `src/tools/portfolio_metrics.py`), together
with theorems settling the spec's claims about them.

Strings are modelled as `List Char`; `Char.toLower` models Python's
`str.lower` (both agree on ASCII, which covers every constant in the
source). Python `float` arithmetic is modelled by exact `ℚ` arithmetic.
-/

/-! ## String machinery

Case-sensitive and case-insensitive substring scanning, and the
case-insensitive replace-all used to model `re.sub(pat, repl, s,
flags=re.IGNORECASE)` for a literal (metacharacter-free) pattern `pat`:
Python scans left to right and replaces non-overlapping matches.
-/

/-- Lower-case every character; models Python's `str.lower()` (ASCII). -/
def lowerStr (s : List Char) : List Char := s.map Char.toLower

/-- Exact match of pattern `p` at the start of `s`. -/
def matchesEx : List Char → List Char → Bool
  | [], _ => true
  | _ :: _, [] => false
  | c :: p', d :: s' => (d == c) && matchesEx p' s'

/-- Exact substring occurrence of `p` anywhere in `s`; models Python's
`p in s`. -/
def containsEx (p : List Char) : List Char → Bool
  | [] => matchesEx p []
  | d :: s' => matchesEx p (d :: s') || containsEx p s'

/-- Case-insensitive match of pattern `p` at the start of `s`. -/
def matchesCI : List Char → List Char → Bool
  | [], _ => true
  | _ :: _, [] => false
  | c :: p', d :: s' => (Char.toLower d == Char.toLower c) && matchesCI p' s'

/-- Case-insensitive substring occurrence of `p` anywhere in `s`. -/
def containsCI (p : List Char) : List Char → Bool
  | [] => matchesCI p []
  | d :: s' => matchesCI p (d :: s') || containsCI p s'

/-- Fuelled worker for `replaceCI`: with enough fuel, replaces every
leftmost non-overlapping case-insensitive occurrence of `p` in `s` by `m`
(the scan continues after the replaced occurrence, as `re.sub` does).
Structural recursion on the fuel keeps the function kernel-reducible. -/
def replaceCIF (p m : List Char) : Nat → List Char → List Char
  | 0, s => s
  | _ + 1, [] => []
  | f + 1, c :: rest =>
    if !p.isEmpty && matchesCI p (c :: rest) then
      m ++ replaceCIF p m f (List.drop (p.length - 1) rest)
    else
      c :: replaceCIF p m f rest

/-- Models `re.sub(p, m, s, flags=re.IGNORECASE)` for a literal non-empty
pattern `p` (every pattern passed to it in the source is a non-empty
literal without regex metacharacters). -/
def replaceCI (p m s : List Char) : List Char := replaceCIF p m s.length s

/-- Does the boolean predicate hold on some suffix of `s` (including `s`
itself and `[]`)? Used to model `re.search`, which tries a match at every
start position. -/
def anySuffix (f : List Char → Bool) : List Char → Bool
  | [] => f []
  | c :: rest => f (c :: rest) || anySuffix f rest

/-- Word characters, models regex `\w` (ASCII fragment). -/
def isWordChar (c : Char) : Bool := c.isAlphanum || c == '_'

/-- Match of the pattern `w ++ \s+ ++ \d+ ++ %` at the start of `s`
(regexes like `r"guaranteed\s+\d+%"` from `_run_compliance_checks`).
Because whitespace, digits and `%` are pairwise disjoint, greedy matching
with backtracking coincides with this maximal-munch scan. -/
def promiseAt (w : List Char) (s : List Char) : Bool :=
  matchesEx w s &&
    (let rest := s.drop w.length
     let ws := rest.takeWhile Char.isWhitespace
     !ws.isEmpty &&
       (let rest2 := rest.drop ws.length
        let ds := rest2.takeWhile Char.isDigit
        !ds.isEmpty && ((rest2.drop ds.length).head? == some '%')))

/-- Models `re.search(w + r"\s+\d+%", s)` as a boolean. -/
def searchPromise (w : List Char) (s : List Char) : Bool :=
  anySuffix (promiseAt w) s

/-- Match of the pattern `w ++ \s+ ++ \w+` at the start of `s` (regexes
like `r"buy\s+\w+"` from `_run_compliance_checks`). -/
def recommendAt (w : List Char) (s : List Char) : Bool :=
  matchesEx w s &&
    (let rest := s.drop w.length
     let ws := rest.takeWhile Char.isWhitespace
     !ws.isEmpty &&
       (match (rest.drop ws.length).head? with
        | some c => isWordChar c
        | none => false))

/-- Models `re.search(w + r"\s+\w+", s)` as a boolean. -/
def searchRecommend (w : List Char) (s : List Char) : Bool :=
  anySuffix (recommendAt w) s

/-! ## Compliance agent data (`src/agents/compliance.py`, `__init__`) -/

/-- The `self.disclaimers` lookup table of `ComplianceAgent.__init__`. -/
def disclaimersTable : List (String × String) :=
  [("general", "This information is for educational purposes only and should not be considered as investment advice."),
   ("portfolio", "Portfolio analysis is for educational purposes only. Past performance does not guarantee future results."),
   ("market", "Market data and analysis are for informational purposes only and should not be considered as investment advice."),
   ("trading", "Trading involves risk and may not be suitable for all investors. Please consult with a financial advisor.")]

/-- The general disclaimer, `self.disclaimers["general"]`. -/
def generalDisclaimer : String :=
  "This information is for educational purposes only and should not be considered as investment advice."

/-- The `self.prohibited_content` phrase list. -/
def prohibitedContent : List (List Char) :=
  ["guaranteed returns".toList, "risk-free".toList, "sure thing".toList,
   "can't lose".toList, "guaranteed profit".toList, "guaranteed income".toList,
   "no risk".toList, "safe bet".toList]

/-- The `self.risk_warnings` base list. -/
def riskWarningsBase : List String :=
  ["Investing involves risk, including the potential loss of principal.",
   "Past performance does not guarantee future results.",
   "Diversification does not ensure a profit or protect against loss.",
   "Consider your investment objectives and risk tolerance before investing."]

/-- The `advice_indicators` list of `_run_compliance_checks`. -/
def adviceIndicators : List (List Char) :=
  ["you should".toList, "you must".toList, "you need to".toList,
   "i recommend you".toList, "you ought to".toList,
   "you would be wise to".toList, "you would benefit from".toList]

/-- The literal heads of the `recommendation_patterns` regexes. -/
def recommendWords : List (List Char) :=
  ["buy".toList, "sell".toList, "invest in".toList, "purchase".toList, "avoid".toList]

/-- The literal heads of the `return_promises` regexes. -/
def promiseWords : List (List Char) :=
  ["guaranteed".toList, "promise".toList, "ensure".toList,
   "guarantee".toList, "promised".toList]

/-- The `time_sensitive` phrase list. -/
def timeSensitive : List (List Char) :=
  ["today only".toList, "limited time".toList, "act now".toList,
   "immediate action".toList, "urgent".toList, "time-sensitive".toList,
   "expires soon".toList]

/-- The redaction marker of `_sanitize_response`. -/
def redactionMarker : List Char := "[content removed for compliance]".toList

/-- The `advice_replacements` substitution table of `_sanitize_response`,
in Python dict insertion order. -/
def adviceReplacements : List (List Char × List Char) :=
  [("you should".toList, "one might consider".toList),
   ("you must".toList, "it's important to understand that".toList),
   ("you need to".toList, "it's worth noting that".toList),
   ("i recommend you".toList, "research suggests that".toList),
   ("you ought to".toList, "it may be beneficial to".toList),
   ("you would be wise to".toList, "it's worth considering that".toList),
   ("you would benefit from".toList, "one might benefit from".toList)]

/-! ## Compliance agent functions (`src/agents/compliance.py`) -/

/-- Is some prohibited phrase an exact substring of the lowered response?
Models the first loop of `_run_compliance_checks` (which lowers the
response and tests `prohibited in response_lower`). -/
def anyProhibited (responseLower : List Char) : Bool :=
  prohibitedContent.any (fun p => containsEx p responseLower)

/-- Is some `return_promises` regex found in the lowered response? -/
def anyPromise (responseLower : List Char) : Bool :=
  promiseWords.any (fun w => searchPromise w responseLower)

/-- The `checks["approved"]` value computed by `_run_compliance_checks`:
it starts `True` and is set to `False` by the prohibited-content loop and
by the return-promises loop, and by nothing else. -/
def checksApproved (response : List Char) : Bool :=
  !(anyProhibited (lowerStr response) || anyPromise (lowerStr response))

/-- The `checks["flags"]` list built by `_run_compliance_checks`, in the
order the source's five loops append them (the parallel `issues` strings
carry no extra information and are not modelled). -/
def checksFlags (response : List Char) : List String :=
  (prohibitedContent.filter (fun p => containsEx p (lowerStr response))).map
      (fun _ => "prohibited_content")
    ++ (adviceIndicators.filter (fun p => containsEx p (lowerStr response))).map
      (fun _ => "personalized_advice")
    ++ (recommendWords.filter (fun w => searchRecommend w (lowerStr response))).map
      (fun _ => "investment_recommendation")
    ++ (promiseWords.filter (fun w => searchPromise w (lowerStr response))).map
      (fun _ => "return_promise")
    ++ (timeSensitive.filter (fun p => containsEx p (lowerStr response))).map
      (fun _ => "time_sensitive")

/-- First pass of `_sanitize_response`: each prohibited phrase is replaced,
case-insensitively, by the redaction marker, in list order. -/
def removeProhibited (response : List Char) : List Char :=
  prohibitedContent.foldl (fun acc p => replaceCI p redactionMarker acc) response

/-- Second pass of `_sanitize_response`: the personalized-advice
substitution table is applied, case-insensitively, in dict order. -/
def applyAdviceReplacements (s : List Char) : List Char :=
  adviceReplacements.foldl (fun acc pr => replaceCI pr.1 pr.2 acc) s

/-- Models `_sanitize_response`: prohibited-content removal, then the
advice-phrase rewriting. -/
def sanitizeResponse (response : List Char) : List Char :=
  applyAdviceReplacements (removeProhibited response)

/-- Models `_generate_disclaimers agent_type checks`: the general
disclaimer, then the agent-specific one when the agent type is a key of
the table, then one conditional disclaimer per triggering flag. -/
def generateDisclaimers (agentType : String) (flags : List String) : List String :=
  [generalDisclaimer]
    ++ (match disclaimersTable.lookup agentType with
        | some d => [d]
        | none => [])
    ++ (if flags.contains "personalized_advice" then
          ["This response is for educational purposes only and should not be considered as personalized investment advice."]
        else [])
    ++ (if flags.contains "investment_recommendation" then
          ["Any investment examples are for educational purposes only and should not be considered as recommendations."]
        else [])
    ++ (if flags.contains "return_promise" then
          ["No investment can guarantee returns. All investments carry risk."]
        else [])

/-- Models `_get_risk_warnings`: the fixed base list plus one
agent-type-specific addition. -/
def getRiskWarnings (agentType : String) : List String :=
  riskWarningsBase
    ++ (if agentType = "portfolio" then
          ["Portfolio analysis is based on historical data and may not reflect future performance."]
        else if agentType = "market" then
          ["Market data is subject to change and may not be current at the time of your decision."]
        else if agentType = "trading" then
          ["Trading involves substantial risk and may not be suitable for all investors."]
        else [])

/-- Result record of `validate_agent_response` (the fields of the updated
`agent_response` dict and its `compliance` metadata that the claims
observe; `jurisdiction` and `last_updated` are fixed strings). -/
structure ValidationResult where
  response : List Char
  disclaimers : List String
  riskWarnings : List String
  complianceFlags : List String
  approved : Bool
  deriving Repr, DecidableEq

/-- Models `ComplianceAgent.validate_agent_response`: the response field is
read with `agent_response.get("response", "")`, so a missing response is
the empty string; checks, disclaimers and sanitization are then applied. -/
def validateAgentResponse (responseField : Option (List Char)) (agentType : String) :
    ValidationResult :=
  let responseText := responseField.getD []
  { response := sanitizeResponse responseText
    disclaimers := generateDisclaimers agentType (checksFlags responseText)
    riskWarnings := getRiskWarnings agentType
    complianceFlags := checksFlags responseText
    approved := checksApproved responseText }

/-! ## Orchestrator (`src/agents/orchestrator.py`) -/

/-- The `AgentType` enum. -/
inductive AgentType where
  | tutor
  | portfolio
  | market
  | compliance
  | onboarding
  deriving Repr, DecidableEq

/-- Models the enum's `.value` attribute. -/
def AgentType.value : AgentType → String
  | .tutor => "tutor"
  | .portfolio => "portfolio"
  | .market => "market"
  | .compliance => "compliance"
  | .onboarding => "onboarding"

/-- The `self.intent_keywords` table of `OrchestratorAgent.__init__`, in
Python dict insertion order. -/
def intentKeywords : List (AgentType × List String) :=
  [(.tutor, ["explain", "what is", "how does", "learn", "teach", "concept",
             "definition", "meaning", "tutorial", "guide", "help me understand"]),
   (.portfolio, ["portfolio", "analyze", "holdings", "performance", "allocation",
                 "rebalance", "risk", "diversification", "sharpe", "volatility",
                 "drawdown", "returns", "metrics"]),
   (.market, ["market", "price", "quote", "news", "update", "trend", "forecast",
              "analysis", "sector", "index", "stocks", "trading", "volatility"]),
   (.onboarding, ["start", "begin", "new", "setup", "profile", "goals", "risk",
                  "preferences", "onboarding", "introduction"])]

/-- Worker for `wordCount`; the flag is true while inside a word. -/
def wordCountAux : List Char → Bool → Nat
  | [], _ => 0
  | c :: rest, inWord =>
    if c.isWhitespace then wordCountAux rest false
    else (if inWord then 0 else 1) + wordCountAux rest true

/-- Models `len(s.split())` in Python: the number of maximal runs of
non-whitespace characters. -/
def wordCount (s : List Char) : Nat := wordCountAux s false

/-- Models `max(scores, key=scores.get)` over the scores dict: the first
entry (in insertion order) with the maximum score wins, because `max`
returns the first maximal element and the fold below replaces the current
best only on a strictly greater score. -/
def argmaxFirst (x : AgentType × Nat) (xs : List (AgentType × Nat)) : AgentType × Nat :=
  xs.foldl (fun best y => if y.2 > best.2 then y else best) x

/-- The per-category keyword-hit counts of `route_query`:
`sum(1 for keyword in keywords if keyword in query_lower)`. -/
def intentScores (queryLower : List Char) : List (AgentType × Nat) :=
  intentKeywords.map (fun p => (p.1, p.2.countP (fun k => containsEx k.toList queryLower)))

/-- Models `OrchestratorAgent.route_query` on the query string. The scores
dict is built over all four keyword categories, so it is never empty and
the `else` fallback branch (tutor, confidence 0.5, intent "general") of
the source is unreachable; the live branch computes
`confidence = scores[best_agent] / len(query_lower.split())`, which raises
`ZeroDivisionError` (modelled as `Except.error ()`) when the query has no
words. On success it returns the chosen agent and the confidence; the
intent set by the live branch is the agent's `.value`. -/
def routeQueryE (query : List Char) : Except Unit (AgentType × ℚ) :=
  let queryLower := lowerStr query
  let scores := intentScores queryLower
  let best := argmaxFirst (.tutor, scores.headD (.tutor, 0) |>.2) scores
  let wc := wordCount queryLower
  if wc = 0 then .error ()
  else .ok (best.1, mkRat (best.2 : Int) wc)

/-! ## Workflow engine (`src/graph/workflow.py`) -/

/-- JSON-like values, for the payload dicts the workflow returns. -/
inductive Val where
  | str (s : String)
  | num (q : ℚ)
  | bool (b : Bool)
  | null
  | list (vs : List Val)
  | dict (entries : List (String × Val))

/-- The subset of the `FinnieState` TypedDict observed by the claims.
`context`, `retrieval`, `market` and `messages` are threaded through the
source unchanged or only written, never read back into the payload, and
are omitted. -/
structure WfState where
  query : String
  currentAgent : Option String
  intent : Option String
  confidence : ℚ
  analysis : List (String × Val)
  compliance : List (String × Val)
  sources : List Val
  approved : Bool
  response : String

/-- Dict-style update of an association list: overwrite the entry when the
key is present, append it otherwise. -/
def setEntry (d : List (String × Val)) (k : String) (v : Val) : List (String × Val) :=
  if (d.lookup k).isSome then d.map (fun p => if p.1 = k then (k, v) else p)
  else d ++ [(k, v)]

/-- Reads a string out of a `Val`, defaulting to `""`. -/
def Val.asString : Val → String
  | .str s => s
  | _ => ""

/-- Result of one responder agent's `process` call: the response text, the
source list, and the extra analysis entries the node copies into
`state["analysis"]`. -/
structure RespResult where
  response : String
  sources : List Val
  extras : List (String × Val)

/-- A responder agent's `process` body, as a function of the query; it may
raise (`Except.error`). The claims quantify over arbitrary bodies, so the
tutor / portfolio / market internals need not be embedded for them. -/
def RespBehavior : Type := String → Except Unit RespResult

/-- The initial `FinnieState` built by `FinnieWorkflow.process_query`. -/
def initialState (query : String) : WfState :=
  { query := query, currentAgent := none, intent := none, confidence := 0,
    analysis := [], compliance := [], sources := [], approved := false,
    response := "" }

/-- Models `FinnieWorkflow._router_node`: runs `route_query`; on success
copies agent/intent/confidence into the state, and on any exception (the
`ZeroDivisionError` for word-less queries) falls back to
tutor / "general" / 0.0. -/
def routerNode (s : WfState) : WfState :=
  match routeQueryE s.query.toList with
  | .ok (agent, conf) =>
    { s with currentAgent := some agent.value, intent := some agent.value,
             confidence := conf }
  | .error _ =>
    { s with currentAgent := some "tutor", intent := some "general",
             confidence := 0 }

/-- Models `FinnieWorkflow._route_to_agent`:
`state.get("current_agent", "tutor")`. -/
def routeToAgent (s : WfState) : String := s.currentAgent.getD "tutor"

/-- Shared shape of `_tutor_node` / `_portfolio_node` / `_market_node`: a
no-op returning the state unchanged when `current_agent` differs from the
node's identity; otherwise the processing body runs (second component
`true`): on success it copies response/sources/extras into the state, and
on an exception it writes the node's apology string and empty sources. -/
def agentNode (name apology : String) (behavior : RespBehavior) (s : WfState) :
    WfState × Bool :=
  if s.currentAgent ≠ some name then (s, false)
  else
    match behavior s.query with
    | .ok r =>
      ({ s with analysis := (setEntry s.analysis "response" (.str r.response)) ++ r.extras,
                sources := r.sources }, true)
    | .error _ =>
      ({ s with analysis := setEntry s.analysis "response" (.str apology),
                sources := [] }, true)

/-- Models `FinnieWorkflow._tutor_node`. -/
def tutorNode (b : RespBehavior) (s : WfState) : WfState × Bool :=
  agentNode "tutor"
    "I'm sorry, I encountered an error processing your educational request. Please try again." b s

/-- Models `FinnieWorkflow._portfolio_node`. -/
def portfolioNode (b : RespBehavior) (s : WfState) : WfState × Bool :=
  agentNode "portfolio"
    "I'm sorry, I encountered an error analyzing your portfolio. Please try again." b s

/-- Models `FinnieWorkflow._market_node`. -/
def marketNode (b : RespBehavior) (s : WfState) : WfState × Bool :=
  agentNode "market"
    "I'm sorry, I encountered an error retrieving market data. Please try again." b s

/-- The compliance metadata dict written by `validate_agent_response`. -/
def complianceMetaDict (vr : ValidationResult) : List (String × Val) :=
  [("disclaimers", .list (vr.disclaimers.map .str)),
   ("risk_warnings", .list (vr.riskWarnings.map .str)),
   ("compliance_flags", .list (vr.complianceFlags.map .str)),
   ("approved", .bool vr.approved),
   ("jurisdiction", .str "US"),
   ("last_updated", .str "2024-01-01")]

/-- Models `FinnieWorkflow._compliance_node`: reads
`analysis.get("response", "")` and `current_agent or "general"`, validates
through `validate_agent_response`, and writes compliance metadata,
sanitized response and approval into the state. (`validate_agent_response`
is total, so the node's exception handler is unreachable.) -/
def complianceNode (s : WfState) : WfState :=
  let response := ((s.analysis.lookup "response").getD (.str "")).asString
  let agentType := s.currentAgent.getD "general"
  let vr := validateAgentResponse (some response.toList) agentType
  { s with compliance := complianceMetaDict vr,
           analysis := setEntry s.analysis "response" (.str (String.mk vr.response)),
           approved := vr.approved }

/-- Extracts the string entries of a `Val.list` stored under key `k`. -/
def getStrList (d : List (String × Val)) (k : String) : List String :=
  match d.lookup k with
  | some (.list vs) => vs.filterMap (fun v => match v with | .str s => some s | _ => none)
  | _ => []

/-- One "• item\n" bullet line per list element, as `_responder_node`
renders disclaimers and risk warnings. -/
def bulletLines (items : List String) : String :=
  items.foldl (fun acc d => acc ++ "• " ++ d ++ "\n") ""

/-- Models `FinnieWorkflow._responder_node` (the formatter): appends the
disclaimer block and the risk-warning block to the response body when the
corresponding compliance lists are non-empty. -/
def responderNode (s : WfState) : WfState :=
  let response := ((s.analysis.lookup "response").getD (.str "")).asString
  let ds := getStrList s.compliance "disclaimers"
  let ws := getStrList s.compliance "risk_warnings"
  let response :=
    if !ds.isEmpty then
      response ++ "\n\n---\n" ++ "**Important Disclaimers:**\n" ++ bulletLines ds
    else response
  let response :=
    if !ws.isEmpty then response ++ "\n**Risk Warnings:**\n" ++ bulletLines ws
    else response
  { s with response := response }

/-- Models one `graph.invoke` run of the compiled LangGraph: the router
node, then the conditional edge keyed by `_route_to_agent`; the path map
covers only "tutor" / "portfolio" / "market", so any other branch value
raises inside `invoke` (`Except.error`). The second component lists the
responder nodes whose processing body executed (guard passed). -/
def graphRun (tb pb mb : RespBehavior) (s0 : WfState) :
    Except Unit WfState × List String :=
  let s1 := routerNode s0
  if routeToAgent s1 = "tutor" then
    let r := tutorNode tb s1
    (.ok (responderNode (complianceNode r.1)), if r.2 then ["tutor"] else [])
  else if routeToAgent s1 = "portfolio" then
    let r := portfolioNode pb s1
    (.ok (responderNode (complianceNode r.1)), if r.2 then ["portfolio"] else [])
  else if routeToAgent s1 = "market" then
    let r := marketNode mb s1
    (.ok (responderNode (complianceNode r.1)), if r.2 then ["market"] else [])
  else (.error (), [])

/-- The keys of the caller-facing payload (§6 of the spec). -/
def payloadKeys : List String :=
  ["response", "sources", "agent", "intent", "confidence", "approved",
   "compliance", "analysis"]

/-- The payload built from the final state on the success path of
`FinnieWorkflow.process_query`. -/
def mkPayload (s : WfState) : List (String × Val) :=
  [("response", .str s.response),
   ("sources", .list s.sources),
   ("agent", match s.currentAgent with | some a => .str a | none => .null),
   ("intent", match s.intent with | some i => .str i | none => .null),
   ("confidence", .num s.confidence),
   ("approved", .bool s.approved),
   ("compliance", .dict s.compliance),
   ("analysis", .dict s.analysis)]

/-- The fallback payload of `process_query`'s exception handler. -/
def fallbackPayload : List (String × Val) :=
  [("response", .str "I'm sorry, I encountered an error processing your request. Please try again."),
   ("sources", .list []),
   ("agent", .str "error"),
   ("intent", .str "error"),
   ("confidence", .num 0),
   ("approved", .bool false),
   ("compliance", .dict []),
   ("analysis", .dict [])]

/-- Models `FinnieWorkflow.process_query`: builds the initial state, runs
the graph, and returns the extracted payload — or, when anything inside
the `try` raises, the fallback payload. `userId` and `ctx` are threaded
for signature fidelity; the responder bodies are parameters. -/
def processQuery (tb pb mb : RespBehavior) (_userId query : String)
    (_ctx : List (String × Val)) : List (String × Val) :=
  match (graphRun tb pb mb (initialState query)).1 with
  | .ok s => mkPayload s
  | .error _ => fallbackPayload

/-! ## Portfolio metrics (`src/agents/portfolio.py`,
`src/tools/portfolio_metrics.py`) -/

/-- One portfolio holding: `symbol` is never read by the metric
calculations and is omitted; `market_value` may be present in the caller's
data (§4.3 of the spec) and is carried so that theorems can speak about
it. -/
structure Holding where
  quantity : ℚ
  costBasis : ℚ
  marketValue : Option ℚ
  deriving Repr, DecidableEq

/-- The per-holding value used throughout both calculators:
`quantity * cost_basis` (the `market_value` column is never read). -/
def holdingValue (h : Holding) : ℚ := h.quantity * h.costBasis

/-- Models `total_value = (df['quantity'] * df['cost_basis']).sum()` from
`_calculate_portfolio_metrics` / `calculate_metrics`. -/
def totalValue (holdings : List Holding) : ℚ :=
  (holdings.map holdingValue).sum

/-- Modelled from the spec: §4.3 says "Total value = sum(quantity ×
cost_basis) when market value is absent, else sum(market_value)"; read
per holding, each contributes its market value when present. Stated only
for comparison with the source's `totalValue`. -/
def specTotalValue (holdings : List Holding) : ℚ :=
  (holdings.map (fun h => h.marketValue.getD (holdingValue h))).sum

/-- Models `PortfolioAnalystAgent._calculate_hhi`: 0 for an empty
holdings frame, else the sum of squared portfolio weights
`((quantity*cost_basis)/total_value)²`. -/
def hhi (holdings : List Holding) : ℚ :=
  if holdings = [] then 0
  else (holdings.map (fun h => (holdingValue h / totalValue holdings) ^ 2)).sum

/-- Models `diversification_ratio = 1 / hhi if hhi > 0 else 0` from
`_calculate_portfolio_metrics` (the same guard appears in
`_calculate_diversification_metrics`). -/
def diversificationRatio (holdings : List Holding) : ℚ :=
  if hhi holdings > 0 then 1 / hhi holdings else 0

/-- One step of a linear congruential generator, a deterministic stand-in
for NumPy's seeded Mersenne-Twister stream. -/
def lcg (x : Nat) : Nat := (1103515245 * x + 12345) % 2 ^ 31

/-- A list of `n` pseudo-random rationals from the LCG state `x`. -/
def lcgStream : Nat → Nat → List ℚ
  | _, 0 => []
  | x, n + 1 => ((lcg x : ℚ) / 2 ^ 31) :: lcgStream (lcg x) n

/-- Models `_generate_mock_returns(num_holdings, days=252)` of both
`PortfolioAnalystAgent` and `PortfolioMetricsCalculator`:
`np.random.seed(42); np.random.normal(0.0008, 0.02, days)`. The seeded
stream is a deterministic function of the seed and `days` alone — the
`num_holdings` argument is ignored by the source, which this definition
preserves. The exact float values of the NumPy stream are not reproduced
(they play no role in any claim); only determinism matters. -/
def generateMockReturns (_numHoldings : Nat) (days : Nat := 252) : List ℚ :=
  lcgStream 42 days

/-- Arithmetic mean, `np.mean` (0 for the empty list, via `ℚ`'s `x/0 = 0`;
the source always passes 252 samples). -/
def meanQ (xs : List ℚ) : ℚ := xs.sum / (xs.length : ℚ)

/-- Population variance, the square of `np.std` (default `ddof=0`). -/
def varianceQ (xs : List ℚ) : ℚ :=
  (xs.map (fun x => (x - meanQ xs) ^ 2)).sum / (xs.length : ℚ)

/-- Worker for `cumprod`: running products with accumulator `a`. -/
def cumprodAux : ℚ → List ℚ → List ℚ
  | _, [] => []
  | a, x :: r => (a * x) :: cumprodAux (a * x) r

/-- Models pandas `.cumprod()`. -/
def cumprod (xs : List ℚ) : List ℚ := cumprodAux 1 xs

/-- Worker for `runningMax`: running maxima with accumulator `a`. -/
def runningMaxAux : ℚ → List ℚ → List ℚ
  | _, [] => []
  | a, x :: r => (max a x) :: runningMaxAux (max a x) r

/-- Models pandas `.expanding().max()`. -/
def runningMax : List ℚ → List ℚ
  | [] => []
  | x :: r => x :: runningMaxAux x r

/-- Minimum of a list, 0 when empty; models `.min()` on the drawdown
series (which has 252 entries in the source). -/
def minimumD : List ℚ → ℚ
  | [] => 0
  | x :: r => r.foldl min x

/-- Insert into a sorted list; worker for `sortQ`. -/
def insertSorted (x : ℚ) : List ℚ → List ℚ
  | [] => [x]
  | y :: r => if x ≤ y then x :: y :: r else y :: insertSorted x r

/-- Insertion sort, ascending; models `np.sort`. -/
def sortQ (xs : List ℚ) : List ℚ := xs.foldr insertSorted []

/-- Models `np.percentile(xs, p)` with the default linear interpolation:
position `p*(n-1)/100` in the ascending sort, interpolating between the
two neighbouring order statistics. -/
def percentileNp (p : ℚ) (xs : List ℚ) : ℚ :=
  match sortQ xs with
  | [] => 0
  | x :: rest =>
    let s := x :: rest
    let n := s.length
    let pos : ℚ := p * ((n : ℚ) - 1) / 100
    let i : Nat := pos.floor.toNat
    let frac : ℚ := pos - (pos.floor : ℚ)
    match s.get? i, s.get? (i + 1) with
    | some a, some b => a + frac * (b - a)
    | some a, none => a
    | none, _ => x

/-- Models the drawdown series of `_calculate_portfolio_metrics`:
`cumulative = (1+returns).cumprod(); peak = cumulative.expanding().max();
(cumulative - peak) / peak`. -/
def drawdownSeries (returns : List ℚ) : List ℚ :=
  let cumulative := cumprod (returns.map (fun r => 1 + r))
  List.zipWith (fun c p => (c - p) / p) cumulative (runningMax cumulative)

/-- The four return-series-derived quantities of
`_calculate_portfolio_metrics`, in determining form: the source's
`volatility` is `√(252 * varianceDaily)` and its `sharpe_ratio` is
`(252 * meanDaily - 0.02) / volatility` (0 when the volatility is 0), so
`volatility`, `sharpe_ratio`, `max_drawdown` and `var_95` are each a
fixed function of this record. -/
structure ReturnStats where
  meanDaily : ℚ
  varianceDaily : ℚ
  maxDrawdown : ℚ
  var95 : ℚ
  deriving Repr, DecidableEq

/-- The return statistics computed from a return series, following
`_calculate_portfolio_metrics` lines 67–81. -/
def returnStats (returns : List ℚ) : ReturnStats :=
  { meanDaily := meanQ returns
    varianceDaily := varianceQ returns
    maxDrawdown := minimumD (drawdownSeries returns)
    var95 := percentileNp 5 returns }

/-- The return statistics `_calculate_portfolio_metrics` attaches to a
holdings list: computed from `_generate_mock_returns(len(holdings))`. -/
def portfolioReturnStats (holdings : List Holding) : ReturnStats :=
  returnStats (generateMockReturns holdings.length)

/-! ## Lemmas about the string scanners

The redaction marker starts with `[` and ends with `]`, and no scanned
phrase contains a bracket; this is what makes the prohibited-content
removal pass complete: a replacement can never splice a new occurrence of
a bracket-free phrase across a marker boundary.
-/

/-- An empty text is matched only by the empty pattern. -/
theorem matchesCI_nil_iff (p : List Char) : matchesCI p [] = true ↔ p = [] := by
  cases p <;> simp [matchesCI]

/-- Unfolding lemma for `containsCI` on a cons cell. -/
theorem containsCI_cons (p : List Char) (d : Char) (s : List Char) :
    containsCI p (d :: s) = (matchesCI p (d :: s) || containsCI p s) := rfl

/-- A match at the start is in particular an occurrence. -/
theorem containsCI_of_matchesCI {p s : List Char} (h : matchesCI p s = true) :
    containsCI p s = true := by
  cases s with
  | nil => exact h
  | cons d s' => rw [containsCI_cons, h, Bool.true_or]

/-- Occurrences survive prepending text. -/
theorem containsCI_append_left {p t : List Char} (a : List Char)
    (h : containsCI p t = true) : containsCI p (a ++ t) = true := by
  induction a with
  | nil => exact h
  | cons c a' ih => rw [List.cons_append, containsCI_cons, ih, Bool.or_true]

/-- An occurrence in a `drop` is an occurrence in the whole list. -/
theorem containsCI_of_drop {p : List Char} {n : Nat} {s : List Char}
    (h : containsCI p (List.drop n s) = true) : containsCI p s = true := by
  rw [← List.take_append_drop n s]
  exact containsCI_append_left _ h

/-- A pattern matching a long enough initial segment matches it alone. -/
theorem matchesCI_take {p : List Char} : ∀ {s₁ : List Char} (s₂ : List Char),
    matchesCI p (s₁ ++ s₂) = true → p.length ≤ s₁.length → matchesCI p s₁ = true := by
  induction p with
  | nil => intro s₁ _ _ _; exact rfl
  | cons c p' ih =>
    intro s₁ s₂ h hlen
    cases s₁ with
    | nil => simp at hlen
    | cons d s₁' =>
      rw [List.cons_append] at h
      simp only [matchesCI, Bool.and_eq_true] at h ⊢
      exact ⟨h.1, ih s₂ h.2 (by simpa using hlen)⟩

/-- Every character of an initial segment that a pattern covers entirely
is, up to lower-casing, one of the pattern's characters. -/
theorem matchesCI_mem_lower {p : List Char} : ∀ {s₁ : List Char} (s₂ : List Char),
    matchesCI p (s₁ ++ s₂) = true → s₁.length ≤ p.length →
    ∀ c ∈ s₁, Char.toLower c ∈ p.map Char.toLower := by
  induction p with
  | nil =>
    intro s₁ s₂ _ hlen c hc
    cases s₁ with
    | nil => simp at hc
    | cons d s₁' => simp at hlen
  | cons q p' ih =>
    intro s₁ s₂ h hlen c hc
    cases s₁ with
    | nil => simp at hc
    | cons d s₁' =>
      rw [List.cons_append] at h
      simp only [matchesCI, Bool.and_eq_true, beq_iff_eq] at h
      rcases List.mem_cons.1 hc with rfl | hc'
      · rw [List.map_cons, h.1]
        exact List.mem_cons_self _ _
      · exact List.mem_cons_of_mem _ (ih s₂ h.2 (by simpa using hlen) c hc')

/-- An occurrence in `a ++ b` either lies wholly in `b` or starts inside
`a`, at some non-empty suffix of `a`. -/
theorem containsCI_append_split {p : List Char} : ∀ {a : List Char} (b : List Char),
    containsCI p (a ++ b) = true →
    containsCI p b = true ∨
      ∃ a₂, a₂ <:+ a ∧ a₂ ≠ [] ∧ matchesCI p (a₂ ++ b) = true := by
  intro a
  induction a with
  | nil => intro b h; exact Or.inl h
  | cons c a' ih =>
    intro b h
    rw [List.cons_append, containsCI_cons, Bool.or_eq_true] at h
    rcases h with h | h
    · exact Or.inr ⟨c :: a', List.suffix_refl _, List.cons_ne_nil _ _, by
        rwa [List.cons_append]⟩
    · rcases ih b h with h' | ⟨a₂, hsuf, hne, hm⟩
      · exact Or.inl h'
      · exact Or.inr ⟨a₂, hsuf.trans (List.suffix_cons _ _), hne, hm⟩

/-- A non-empty suffix of a list ending in `e` contains `e`. -/
theorem mem_of_suffix_concat {a₂ mi : List Char} {e : Char}
    (hsuf : a₂ <:+ mi ++ [e]) (hne : a₂ ≠ []) : e ∈ a₂ := by
  obtain ⟨pre, hpre⟩ := hsuf
  rcases List.eq_nil_or_concat a₂ with rfl | ⟨a₂', x, rfl⟩
  · exact absurd rfl hne
  · have hcat : (pre ++ a₂') ++ [x] = mi ++ [e] := by
      rw [← hpre, List.concat_eq_append, List.append_assoc]
    have hx : x = e := by
      have := congrArg (List.getLast? ·) hcat
      simpa [List.getLast?_concat] using this
    subst hx
    simp [List.concat_eq_append]

/-- A pattern with no occurrence in the text is not replaced: `re.sub`
leaves the text unchanged. -/
theorem replaceCIF_of_not_contains {q : List Char} (m : List Char) :
    ∀ (f : Nat) (s : List Char), containsCI q s = false → replaceCIF q m f s = s := by
  intro f
  induction f with
  | zero => intro s _; rfl
  | succ f ih =>
    intro s h
    cases s with
    | nil => rfl
    | cons c rest =>
      rw [containsCI_cons, Bool.or_eq_false_iff] at h
      simp only [replaceCIF, h.1, Bool.and_false, Bool.false_eq_true, if_false]
      rw [ih rest h.2]

/-- A bracket-free pattern matching the start of a replacement's output
also matches the start of its input: the output starts either with the
original head character or with the marker's opening `[`, which the
pattern cannot match. -/
theorem matchesCI_of_matchesCI_replaceCIF {q m : List Char}
    (hmh : m.head? = some '[') :
    ∀ (f : Nat) (t p' : List Char), '[' ∉ p'.map Char.toLower →
    matchesCI p' (replaceCIF q m f t) = true → matchesCI p' t = true := by
  intro f
  induction f with
  | zero => intro t p' _ h; exact h
  | succ f ih =>
    intro t p' hbr h
    cases t with
    | nil =>
      cases p' with
      | nil => rfl
      | cons c p'' => exact absurd h (by simp [replaceCIF, matchesCI])
    | cons c rest =>
      by_cases hg : (!q.isEmpty && matchesCI q (c :: rest)) = true
      · rw [replaceCIF, if_pos hg] at h
        cases p' with
        | nil => rfl
        | cons pc ptl =>
          cases m with
          | nil => simp at hmh
          | cons mh mtl =>
            have hmh' : mh = '[' := by simpa using hmh
            subst hmh'
            rw [List.cons_append] at h
            simp only [matchesCI, Bool.and_eq_true, beq_iff_eq] at h
            have hpc : Char.toLower pc = '[' := by rw [← h.1]; decide
            exact absurd (by rw [List.map_cons, hpc]; exact List.mem_cons_self _ _) hbr
      · rw [replaceCIF, if_neg hg] at h
        cases p' with
        | nil => rfl
        | cons pc ptl =>
          simp only [matchesCI, Bool.and_eq_true] at h ⊢
          refine ⟨h.1, ih rest ptl ?_ h.2⟩
          intro hmem
          exact hbr (by simpa using Or.inr hmem)

/-- Main completeness lemma for the redaction pass: replacing any pattern
`q` by the bracket-delimited marker `m` leaves no occurrence of a
bracket-free phrase `p` that is absent from the marker, provided `p` was
absent from the input or is the very pattern being replaced. -/
theorem containsCI_replaceCIF_eq_false {p q m mi : List Char}
    (hp : p ≠ [])
    (hlb : '[' ∉ p.map Char.toLower) (hrb : ']' ∉ p.map Char.toLower)
    (hpm : containsCI p m = false)
    (hmh : m.head? = some '[') (hml : m = mi ++ [']']) :
    ∀ (f : Nat) (s : List Char), s.length ≤ f →
      (p = q ∨ containsCI p s = false) →
      containsCI p (replaceCIF q m f s) = false := by
  intro f
  induction f with
  | zero =>
    intro s hlen _
    have hs : s = [] := List.eq_nil_of_length_eq_zero (Nat.le_zero.1 hlen)
    subst hs
    show containsCI p [] = false
    cases p with
    | nil => exact absurd rfl hp
    | cons a b => rfl
  | succ f ih =>
    intro s hlen hdisj
    cases s with
    | nil =>
      show containsCI p [] = false
      cases p with
      | nil => exact absurd rfl hp
      | cons a b => rfl
    | cons c rest =>
      have hrest : rest.length ≤ f := by simpa using hlen
      by_cases hg : (!q.isEmpty && matchesCI q (c :: rest)) = true
      · rw [replaceCIF, if_pos hg]
        by_contra hcon
        rw [Bool.not_eq_false] at hcon
        have hd : (List.drop (q.length - 1) rest).length ≤ f :=
          le_trans (by rw [List.length_drop]; exact Nat.sub_le _ _) hrest
        have hdisj' : p = q ∨ containsCI p (List.drop (q.length - 1) rest) = false := by
          rcases hdisj with h | h
          · exact Or.inl h
          · refine Or.inr ?_
            by_contra hdc
            rw [Bool.not_eq_false] at hdc
            have h1 : containsCI p (c :: rest) = true := by
              rw [containsCI_cons, containsCI_of_drop hdc, Bool.or_true]
            rw [h1] at h
            simp at h
        have hRfalse := ih _ hd hdisj'
        rcases containsCI_append_split _ hcon with hinR | ⟨a₂, hsuf, hne, hm2⟩
        · rw [hinR] at hRfalse
          simp at hRfalse
        · by_cases hlen2 : p.length ≤ a₂.length
          · have hmA := matchesCI_take _ hm2 hlen2
            have hca : containsCI p a₂ = true := containsCI_of_matchesCI hmA
            obtain ⟨pre, hpre⟩ := hsuf
            have hcm : containsCI p m = true := by
              rw [← hpre]; exact containsCI_append_left pre hca
            rw [hcm] at hpm
            simp at hpm
          · have hle : a₂.length ≤ p.length := Nat.le_of_lt (Nat.lt_of_not_le hlen2)
            have hmem : ']' ∈ a₂ := mem_of_suffix_concat (hml ▸ hsuf) hne
            have hin := matchesCI_mem_lower _ hm2 hle ']' hmem
            rw [show Char.toLower ']' = ']' from by decide] at hin
            exact absurd hin hrb
      · rw [replaceCIF, if_neg hg]
        have hrestdisj : p = q ∨ containsCI p rest = false := by
          rcases hdisj with h | h
          · exact Or.inl h
          · rw [containsCI_cons, Bool.or_eq_false_iff] at h
            exact Or.inr h.2
        have hRfalse := ih rest hrest hrestdisj
        rw [containsCI_cons, Bool.or_eq_false_iff]
        refine ⟨?_, hRfalse⟩
        by_contra hmc
        rw [Bool.not_eq_false] at hmc
        cases p with
        | nil => exact hp rfl
        | cons pc ptl =>
          simp only [matchesCI, Bool.and_eq_true] at hmc
          have hptl : matchesCI ptl rest = true := by
            refine matchesCI_of_matchesCI_replaceCIF hmh f rest ptl ?_ hmc.2
            intro hmem
            exact hlb (by rw [List.map_cons]; exact List.mem_cons_of_mem _ hmem)
          have hfull : matchesCI (pc :: ptl) (c :: rest) = true := by
            simp only [matchesCI, Bool.and_eq_true]
            exact ⟨hmc.1, hptl⟩
          rcases hdisj with hpq | habs
          · rw [← hpq] at hg
            exact hg (by simp [List.isEmpty, hfull])
          · rw [containsCI_cons, Bool.or_eq_false_iff] at habs
            rw [hfull] at habs
            simp at habs

/-- A phrase the sanitizer may scan for safely: non-empty, bracket-free
(up to lower-casing), and with no case-insensitive occurrence inside the
redaction marker. Every prohibited phrase and every advice indicator of
the source satisfies this. -/
def goodPhrase (p : List Char) : Prop :=
  p ≠ [] ∧ '[' ∉ p.map Char.toLower ∧ ']' ∉ p.map Char.toLower ∧
    containsCI p redactionMarker = false

instance : DecidablePred goodPhrase := fun _ =>
  inferInstanceAs (Decidable (_ ∧ _ ∧ _ ∧ _))

/-- The marker body without its closing bracket. -/
def redactionMarkerInit : List Char := "[content removed for compliance".toList

/-- The redaction marker decomposes as its body plus the closing `]`. -/
theorem redactionMarker_eq : redactionMarker = redactionMarkerInit ++ [']'] := by decide

/-- The redaction marker opens with `[`. -/
theorem redactionMarker_head : redactionMarker.head? = some '[' := by decide

/-- Every prohibited phrase is a `goodPhrase`. -/
theorem prohibited_good : ∀ p ∈ prohibitedContent, goodPhrase p := by decide

/-- Every advice indicator is a `goodPhrase`. -/
theorem advice_good : ∀ p ∈ adviceIndicators, goodPhrase p := by decide

/-- Replacing a phrase by the marker leaves no occurrence of that phrase. -/
theorem containsCI_replaceCI_self {p : List Char} (hg : goodPhrase p)
    (s : List Char) : containsCI p (replaceCI p redactionMarker s) = false :=
  containsCI_replaceCIF_eq_false hg.1 hg.2.1 hg.2.2.1 hg.2.2.2
    redactionMarker_head redactionMarker_eq s.length s (le_refl _) (Or.inl rfl)

/-- Replacing any pattern by the marker cannot create an occurrence of an
absent `goodPhrase`. -/
theorem containsCI_replaceCI_other {p : List Char} (hg : goodPhrase p)
    (q s : List Char) (habs : containsCI p s = false) :
    containsCI p (replaceCI q redactionMarker s) = false :=
  containsCI_replaceCIF_eq_false hg.1 hg.2.1 hg.2.2.1 hg.2.2.2
    redactionMarker_head redactionMarker_eq s.length s (le_refl _) (Or.inr habs)

/-- A pattern with no occurrence is not replaced (`replaceCI` version). -/
theorem replaceCI_of_not_contains {q : List Char} (m s : List Char)
    (h : containsCI q s = false) : replaceCI q m s = s :=
  replaceCIF_of_not_contains m s.length s h

/-- A `goodPhrase` absent from the input stays absent through any
sequence of marker redactions. -/
theorem foldl_redact_preserves_absence {p : List Char} (hg : goodPhrase p) :
    ∀ (qs : List (List Char)) (s : List Char), containsCI p s = false →
      containsCI p (qs.foldl (fun acc q => replaceCI q redactionMarker acc) s) = false := by
  intro qs
  induction qs with
  | nil => intro s h; exact h
  | cons q qs' ih =>
    intro s h
    rw [List.foldl_cons]
    exact ih _ (containsCI_replaceCI_other hg q s h)

/-- After redacting every phrase of a list of `goodPhrase`s in sequence,
none of them occurs in the result, present in the input or not. -/
theorem foldl_redact_removes_all :
    ∀ (ps : List (List Char)) (s p : List Char), p ∈ ps → goodPhrase p →
      containsCI p (ps.foldl (fun acc q => replaceCI q redactionMarker acc) s) = false := by
  intro ps
  induction ps with
  | nil => intro s p hmem; exact absurd hmem (List.not_mem_nil _)
  | cons q qs' ih =>
    intro s p hmem hg
    rw [List.foldl_cons]
    rcases List.mem_cons.1 hmem with rfl | hmem'
    · exact foldl_redact_preserves_absence hg qs' _ (containsCI_replaceCI_self hg s)
    · exact ih _ p hmem' hg

/-- When none of the table's indicator phrases occurs, the advice
substitution pass is the identity. -/
theorem foldl_advice_id :
    ∀ (prs : List (List Char × List Char)) (s : List Char),
      (∀ pr ∈ prs, containsCI pr.1 s = false) →
      prs.foldl (fun acc pr => replaceCI pr.1 pr.2 acc) s = s := by
  intro prs
  induction prs with
  | nil => intro s _; rfl
  | cons pr prs' ih =>
    intro s h
    rw [List.foldl_cons, replaceCI_of_not_contains pr.2 s (h pr (List.mem_cons_self _ _))]
    exact ih s (fun pr' hpr' => h pr' (List.mem_cons_of_mem _ hpr'))

/-- An exact match is in particular a case-insensitive match. -/
theorem matchesCI_of_matchesEx : ∀ {p s : List Char},
    matchesEx p s = true → matchesCI p s = true := by
  intro p
  induction p with
  | nil => intro s _; rfl
  | cons c p' ih =>
    intro s h
    cases s with
    | nil => exact absurd h (by simp [matchesEx])
    | cons d s' =>
      simp only [matchesEx, Bool.and_eq_true, beq_iff_eq] at h
      simp only [matchesCI, Bool.and_eq_true, beq_iff_eq]
      exact ⟨by rw [h.1], ih h.2⟩

/-- An exact occurrence is in particular a case-insensitive occurrence. -/
theorem containsCI_of_containsEx {p : List Char} : ∀ {s : List Char},
    containsEx p s = true → containsCI p s = true := by
  intro s
  induction s with
  | nil => exact fun h => matchesCI_of_matchesEx h
  | cons d s' ih =>
    intro h
    have h2 : (matchesEx p (d :: s') || containsEx p s') = true := h
    rw [Bool.or_eq_true] at h2
    rcases h2 with h' | h'
    · exact containsCI_of_matchesCI (matchesCI_of_matchesEx h')
    · rw [containsCI_cons, ih h', Bool.or_true]

/-- For a lower-case-invariant pattern, matching exactly against the
lowered text is the same as matching case-insensitively against the
original text (this is how the source's `phrase in response.lower()`
checks line up with the case-insensitive `re.sub` calls). -/
theorem matchesEx_lower_eq_matchesCI : ∀ (p : List Char),
    p.map Char.toLower = p → ∀ (s : List Char),
      matchesEx p (lowerStr s) = matchesCI p s := by
  intro p
  induction p with
  | nil => intro _ s; cases s <;> rfl
  | cons c p' ih =>
    intro hinv s
    rw [List.map_cons] at hinv
    obtain ⟨hc, hp'⟩ := List.cons.inj hinv
    cases s with
    | nil => rfl
    | cons d s' =>
      show ((Char.toLower d == c) && matchesEx p' (lowerStr s'))
          = ((Char.toLower d == Char.toLower c) && matchesCI p' s')
      rw [hc, ih hp' s']

/-- `containsEx` against the lowered text coincides with `containsCI`
against the original, for lower-case-invariant patterns. -/
theorem containsEx_lower_eq_containsCI (p : List Char)
    (hinv : p.map Char.toLower = p) : ∀ (s : List Char),
      containsEx p (lowerStr s) = containsCI p s := by
  intro s
  induction s with
  | nil => exact matchesEx_lower_eq_matchesCI p hinv []
  | cons d s' ih =>
    show (matchesEx p (lowerStr (d :: s')) || containsEx p (lowerStr s'))
        = (matchesCI p (d :: s') || containsCI p s')
    rw [matchesEx_lower_eq_matchesCI p hinv (d :: s'), ih]

/-- Every prohibited phrase is written in lower case in the source. -/
theorem prohibited_lower : ∀ p ∈ prohibitedContent, p.map Char.toLower = p := by decide

/-- Every advice indicator is written in lower case in the source. -/
theorem advice_lower : ∀ p ∈ adviceIndicators, p.map Char.toLower = p := by decide

/-- The advice substitution table's patterns are exactly the advice
indicators scanned by the checks. -/
theorem adviceReplacements_keys :
    adviceReplacements.map Prod.fst = adviceIndicators := by decide

/-! ## Helper lemmas about the workflow nodes -/

/-- The router node always sets a concrete current agent: both the
success branch and the exception handler of `_router_node` write one. -/
theorem routerNode_currentAgent (s : WfState) :
    ∃ a : String, (routerNode s).currentAgent = some a := by
  rw [routerNode]
  cases routeQueryE s.query.toList with
  | ok v =>
    obtain ⟨agent, conf⟩ := v
    exact ⟨agent.value, rfl⟩
  | error e => exact ⟨"tutor", rfl⟩

/-- A responder node whose identity matches the routed agent executes its
processing body, whether the body succeeds or raises. -/
theorem agentNode_ran (name apology : String) (b : RespBehavior) (s : WfState)
    (h : s.currentAgent = some name) : (agentNode name apology b s).2 = true := by
  rw [agentNode, if_neg (by rw [h]; exact fun hne => hne rfl)]
  cases b s.query with
  | ok r => rfl
  | error e => rfl

/-- A concrete, always-succeeding responder body, used to instantiate the
behavior parameters at concrete inputs. -/
def okBehavior : RespBehavior :=
  fun _ => .ok { response := "ok", sources := [], extras := [] }

/-! ## Claim theorems -/

deriving instance DecidableEq for Except

/-- C2 (code bug): on the keywordless query "hello world", `route_query`
takes the scoring branch (the scores dict is never empty, so the
`confidence = 0.5` fallback branch is dead code) and returns the default
category tutor with confidence `0 / 2 = 0.0`, not the fixed value `0.5`
the claim states. -/
theorem claimC2_keywordless_query_gets_confidence_zero :
    routeQueryE "hello world".toList = .ok (AgentType.tutor, 0) ∧ (0 : ℚ) ≠ 1 / 2 := by
  refine ⟨by decide, by norm_num⟩

/-- C6 (code bug): `route_query` raises `ZeroDivisionError` on the empty
and on a whitespace-only query (`len(query.split()) = 0` and the
confidence division runs before any fallback), although every query with
at least one word gets a category. -/
theorem claimC6_route_query_raises_on_wordless_query :
    routeQueryE "".toList = .error () ∧ routeQueryE "   ".toList = .error () ∧
    (∀ q : List Char, wordCount (lowerStr q) ≠ 0 →
      ∃ a : AgentType, ∃ c : ℚ, routeQueryE q = .ok (a, c)) := by
  refine ⟨rfl, rfl, ?_⟩
  intro q hw
  rw [routeQueryE]
  simp only [hw, if_false]
  exact ⟨_, _, rfl⟩

/-- Closed witness for the totality half of the C6 theorem, at the
one-word query "learn". -/
theorem claimC6_route_query_raises_on_wordless_query_witness :
    wordCount (lowerStr "learn".toList) ≠ 0 ∧
    ∃ a : AgentType, ∃ c : ℚ, routeQueryE "learn".toList = .ok (a, c) :=
  ⟨by decide,
   claimC6_route_query_raises_on_wordless_query.2.2 "learn".toList (by decide)⟩

/-- C1 (amended): whenever the routed category is one of the three
mapped branches tutor / portfolio / market, exactly that one responder
node executes its processing body, for arbitrary responder behaviors.
(The original claim fails for queries routed to the unmapped onboarding
category, see the counterexample.) -/
theorem claimC1_exactly_one_responder_on_mapped_routes
    (tb pb mb : RespBehavior) (q : String)
    (h : routeToAgent (routerNode (initialState q)) ∈
      (["tutor", "portfolio", "market"] : List String)) :
    (graphRun tb pb mb (initialState q)).2 =
      [routeToAgent (routerNode (initialState q))] := by
  obtain ⟨a, ha⟩ := routerNode_currentAgent (initialState q)
  have hra : routeToAgent (routerNode (initialState q)) = a := by
    rw [routeToAgent, ha]; rfl
  rw [hra] at h ⊢
  simp only [List.mem_cons, List.mem_nil_iff, or_false] at h
  rcases h with rfl | rfl | rfl
  · rw [graphRun]
    simp only [hra]
    rw [tutorNode, agentNode_ran _ _ tb _ ha]
    simp
  · rw [graphRun]
    simp only [hra]
    rw [portfolioNode, agentNode_ran _ _ pb _ ha]
    simp
  · rw [graphRun]
    simp only [hra]
    rw [marketNode, agentNode_ran _ _ mb _ ha]
    simp

/-- Closed witness for the amended C1 theorem: the query "learn" routes
to tutor, and exactly the tutor responder executes. -/
theorem claimC1_exactly_one_responder_on_mapped_routes_witness :
    routeToAgent (routerNode (initialState "learn")) ∈
      (["tutor", "portfolio", "market"] : List String) ∧
    (graphRun okBehavior okBehavior okBehavior (initialState "learn")).2 =
      [routeToAgent (routerNode (initialState "learn"))] :=
  ⟨by decide,
   claimC1_exactly_one_responder_on_mapped_routes okBehavior okBehavior okBehavior
     "learn" (by decide)⟩

/-- C1 counterexample: the query "setup preferences" is routed to the
onboarding category, which the conditional edge's path map does not
cover, so `graph.invoke` raises and zero responders execute — refuting
"exactly one responder executes for every query". -/
theorem claimC1_counterexample_onboarding_route :
    (graphRun okBehavior okBehavior okBehavior (initialState "setup preferences")).2 = [] ∧
    (graphRun okBehavior okBehavior okBehavior (initialState "setup preferences")).1 = .error () ∧
    routeToAgent (routerNode (initialState "setup preferences")) = "onboarding" := by
  refine ⟨by decide, rfl, rfl⟩

/-- C4: for arbitrary responder behaviors, user, query and context,
`process_query` returns an association list carrying all eight payload
keys, and whenever the graph run raises internally the caller receives
exactly the fallback payload, whose fields are the generic apologetic
message, `approved = false` and empty sources/compliance collections. -/
theorem claimC4_process_query_always_wellformed (tb pb mb : RespBehavior)
    (uid q : String) (ctx : List (String × Val)) :
    (∀ k ∈ payloadKeys, ((processQuery tb pb mb uid q ctx).lookup k).isSome = true) ∧
    ((graphRun tb pb mb (initialState q)).1 = .error () →
      processQuery tb pb mb uid q ctx = fallbackPayload) ∧
    fallbackPayload.lookup "response" =
      some (.str "I'm sorry, I encountered an error processing your request. Please try again.") ∧
    fallbackPayload.lookup "sources" = some (.list []) ∧
    fallbackPayload.lookup "approved" = some (.bool false) ∧
    fallbackPayload.lookup "compliance" = some (.dict []) := by
  refine ⟨?_, ?_, rfl, rfl, rfl, rfl⟩
  · intro k hk
    rw [processQuery]
    cases hg : (graphRun tb pb mb (initialState q)).1 with
    | ok s => fin_cases hk <;> rfl
    | error e => fin_cases hk <;> rfl
  · intro he
    rw [processQuery, he]

/-- Closed witness for C4: with concrete behaviors and the query
"begin onboarding" the graph run raises, and the caller still receives
the well-formed fallback payload. -/
theorem claimC4_process_query_always_wellformed_witness :
    ((graphRun okBehavior okBehavior okBehavior (initialState "begin onboarding")).1
      = .error ()) ∧
    processQuery okBehavior okBehavior okBehavior "u1" "begin onboarding" []
      = fallbackPayload :=
  ⟨rfl,
   (claimC4_process_query_always_wellformed okBehavior okBehavior okBehavior
     "u1" "begin onboarding" []).2.1 rfl⟩

/-- C3 (amended): a response containing a prohibited phrase
(case-insensitively) is never approved, and the prohibited-content
removal pass eliminates every occurrence of every prohibited phrase; the
phrase is also absent from the final sanitized output whenever the
response contains no personalized-advice indicator — the subsequent
advice rewriting can otherwise re-create a prohibited phrase (see the
counterexample). -/
theorem claimC3_prohibited_phrase_blocks_and_redacts (r p : List Char)
    (hmem : p ∈ prohibitedContent)
    (hin : containsEx p (lowerStr r) = true) :
    checksApproved r = false ∧
    (∀ q ∈ prohibitedContent, containsCI q (removeProhibited r) = false) ∧
    ((∀ ind ∈ adviceIndicators, containsEx ind (lowerStr r) = false) →
      containsEx p (sanitizeResponse r) = false) := by
  refine ⟨?_, ?_, ?_⟩
  · rw [checksApproved]
    have ha : anyProhibited (lowerStr r) = true := List.any_eq_true.2 ⟨p, hmem, hin⟩
    rw [ha]
    rfl
  · intro q hq
    exact foldl_redact_removes_all prohibitedContent r q hq (prohibited_good q hq)
  · intro hadv
    have h1 : ∀ ind ∈ adviceIndicators, containsCI ind r = false := by
      intro ind hi
      rw [← containsEx_lower_eq_containsCI ind (advice_lower ind hi) r]
      exact hadv ind hi
    have h2 : ∀ pr ∈ adviceReplacements, containsCI pr.1 (removeProhibited r) = false := by
      intro pr hpr
      have hmemInd : pr.1 ∈ adviceIndicators := by
        rw [← adviceReplacements_keys]
        exact List.mem_map_of_mem Prod.fst hpr
      exact foldl_redact_preserves_absence (advice_good pr.1 hmemInd)
        prohibitedContent r (h1 pr.1 hmemInd)
    have h3 : sanitizeResponse r = removeProhibited r := by
      rw [sanitizeResponse]
      exact foldl_advice_id adviceReplacements (removeProhibited r) h2
    rw [h3]
    by_contra hcon
    rw [Bool.not_eq_false] at hcon
    have hci := containsCI_of_containsEx hcon
    have habs : containsCI p (removeProhibited r) = false :=
      foldl_redact_removes_all prohibitedContent r p hmem (prohibited_good p hmem)
    rw [habs] at hci
    simp at hci

/-- Closed witness for the amended C3 theorem: "This is a safe bet."
contains the prohibited phrase "safe bet" and no advice indicator, so the
review rejects it and the phrase is gone from the sanitized output. -/
theorem claimC3_prohibited_phrase_blocks_and_redacts_witness :
    ("safe bet".toList ∈ prohibitedContent) ∧
    containsEx "safe bet".toList (lowerStr "This is a safe bet.".toList) = true ∧
    (∀ ind ∈ adviceIndicators,
      containsEx ind (lowerStr "This is a safe bet.".toList) = false) ∧
    checksApproved "This is a safe bet.".toList = false ∧
    containsEx "safe bet".toList
      (sanitizeResponse "This is a safe bet.".toList) = false :=
  ⟨by decide, by decide, by decide,
   (claimC3_prohibited_phrase_blocks_and_redacts "This is a safe bet.".toList
     "safe bet".toList (by decide) (by decide)).1,
   (claimC3_prohibited_phrase_blocks_and_redacts "This is a safe bet.".toList
     "safe bet".toList (by decide) (by decide)).2.2 (by decide)⟩

/-- C3 counterexample: the response
"guaranteed profit guaranteed profyou must" contains the prohibited
phrase "guaranteed profit" and is rejected, yet after sanitization the
phrase appears verbatim in the output: the advice rewriting of
"you must" into "it's important to understand that" re-creates it from
the fragment "guaranteed prof". -/
theorem claimC3_counterexample_phrase_survives_sanitization :
    containsEx "guaranteed profit".toList
      (lowerStr "guaranteed profit guaranteed profyou must".toList) = true ∧
    checksApproved "guaranteed profit guaranteed profyou must".toList = false ∧
    containsEx "guaranteed profit".toList
      (sanitizeResponse "guaranteed profit guaranteed profyou must".toList) = true := by
  refine ⟨by decide, by decide, by decide⟩

/-- C5 (amended): every compliance review output carries at least one
disclaimer, and the general disclaimer always leads the list. (The
idempotence half of the original claim is false: re-running the review
on sanitized output can introduce new prohibited content and can flip
approved from false back to true, see the counterexample.) -/
theorem claimC5_at_least_one_disclaimer (responseField : Option (List Char))
    (agentType : String) :
    1 ≤ (validateAgentResponse responseField agentType).disclaimers.length ∧
    (validateAgentResponse responseField agentType).disclaimers.head? =
      some generalDisclaimer := by
  constructor
  · simp only [validateAgentResponse, generateDisclaimers]
    simp
  · simp only [validateAgentResponse, generateDisclaimers]
    rfl

/-- C5 counterexample: (a) "no risk" is rejected, but re-running the
review on its sanitized output approves it (the flag does not survive
sanitization); (b) sanitizing the response
"guaranteed profyou need tyou would benefit from" yields an output free
of prohibited content, yet sanitizing that output again introduces the
prohibited phrase "guaranteed profit" — re-running the review on an
already-sanitized response does introduce new prohibited content. -/
theorem claimC5_counterexample_rerun_not_idempotent :
    checksApproved "no risk".toList = false ∧
    checksApproved (sanitizeResponse "no risk".toList) = true ∧
    anyProhibited (lowerStr (sanitizeResponse
      "guaranteed profyou need tyou would benefit from".toList)) = false ∧
    containsEx "guaranteed profit".toList
      (sanitizeResponse (sanitizeResponse
        "guaranteed profyou need tyou would benefit from".toList)) = true := by
  refine ⟨by decide, by decide, by decide, by decide⟩

/-- C9: a validation input with no response field is processed as the
empty string and never raises: the review approves it, raises no flags,
sanitizes to the empty string, and attaches only the generic disclaimers
(the general one plus the agent-type one when the type is known). -/
theorem claimC9_missing_response_is_empty_string (agentType : String) :
    (validateAgentResponse none agentType).approved = true ∧
    (validateAgentResponse none agentType).complianceFlags = [] ∧
    (validateAgentResponse none agentType).response = [] ∧
    (validateAgentResponse none agentType).disclaimers =
      generalDisclaimer :: (disclaimersTable.lookup agentType).toList := by
  have hf : checksFlags ([] : List Char) = [] := by decide
  have h1 : checksApproved ([] : List Char) = true := by decide
  have h2 : sanitizeResponse ([] : List Char) = [] := by decide
  refine ⟨h1, hf, h2, ?_⟩
  simp only [validateAgentResponse, Option.getD_none, hf, generateDisclaimers]
  cases disclaimersTable.lookup agentType <;> simp

/-- C7 (amended): for every non-empty holdings list the total value is
the sum of `quantity * cost_basis`, and it is invariant under changing
the holdings' `market_value` fields — the calculators never read market
value (the spec's "else sum(market_value)" clause does not hold, see the
counterexample); in particular the single AAPL holding of 100 shares at
cost basis 150 totals 15000. -/
theorem claimC7_total_value_is_cost_basis_sum (hs : List Holding) (_hne : hs ≠ []) :
    totalValue hs = (hs.map (fun h => h.quantity * h.costBasis)).sum ∧
    (∀ mv : Option ℚ,
      totalValue (hs.map (fun h => { h with marketValue := mv })) = totalValue hs) ∧
    totalValue [{ quantity := 100, costBasis := 150, marketValue := none }] = 15000 := by
  refine ⟨rfl, ?_, by norm_num [totalValue, holdingValue]⟩
  intro mv
  rw [totalValue, totalValue, List.map_map]
  rfl

/-- Closed witness for the amended C7 theorem, at the single AAPL
holding. -/
theorem claimC7_total_value_is_cost_basis_sum_witness :
    ([({ quantity := 100, costBasis := 150, marketValue := none } : Holding)] ≠ []) ∧
    (totalValue [({ quantity := 100, costBasis := 150, marketValue := none } : Holding)]
        = ([({ quantity := 100, costBasis := 150, marketValue := none } : Holding)].map
            (fun h => h.quantity * h.costBasis)).sum ∧
      (∀ mv : Option ℚ,
        totalValue ([({ quantity := 100, costBasis := 150, marketValue := none } : Holding)].map
            (fun h => { h with marketValue := mv }))
          = totalValue [({ quantity := 100, costBasis := 150, marketValue := none } : Holding)]) ∧
      totalValue [{ quantity := 100, costBasis := 150, marketValue := none }] = 15000) :=
  ⟨by simp,
   claimC7_total_value_is_cost_basis_sum
     [{ quantity := 100, costBasis := 150, marketValue := none }] (by simp)⟩

/-- C7 counterexample: a holding with a present market value of 100 but
quantity 10 at cost basis 5 totals 50 in the code (cost-basis product),
not the 100 the spec's "else sum(market_value)" clause would give. -/
theorem claimC7_counterexample_market_value_not_used :
    ({ quantity := 10, costBasis := 5, marketValue := some 100 } : Holding).marketValue
      = some 100 ∧
    totalValue [{ quantity := 10, costBasis := 5, marketValue := some 100 }] = 50 ∧
    specTotalValue [{ quantity := 10, costBasis := 5, marketValue := some 100 }] = 100 ∧
    (50 : ℚ) ≠ 100 := by
  refine ⟨rfl, by norm_num [totalValue, holdingValue],
    by norm_num [specTotalValue, holdingValue], by norm_num⟩

/-- C8: the concentration and diversification metrics: HHI is the sum of
squared weights, equal to 1 for a single positive-value holding (with
diversification ratio 1), equal to `1/n` for an `n`-fold equal-weight
portfolio, 0 for an empty portfolio (with the division-by-zero guard
giving ratio 0); and for every non-empty all-positive portfolio the HHI
is positive and the ratio is exactly `1 / HHI`. -/
theorem claimC8_hhi_diversification (h g : Holding) (n : Nat)
    (hv : 0 < holdingValue h) (hn : n ≠ 0) (hgv : 0 < holdingValue g) :
    hhi [h] = 1 ∧ diversificationRatio [h] = 1 ∧
    hhi (List.replicate n g) = 1 / (n : ℚ) ∧
    hhi ([] : List Holding) = 0 ∧ diversificationRatio ([] : List Holding) = 0 ∧
    (∀ hs : List Holding, hs ≠ [] → (∀ y ∈ hs, 0 < holdingValue y) →
      0 < hhi hs ∧ diversificationRatio hs = 1 / hhi hs) := by
  have hv0 : holdingValue h ≠ 0 := ne_of_gt hv
  have hg0 : holdingValue g ≠ 0 := ne_of_gt hgv
  have hnq : (n : ℚ) ≠ 0 := Nat.cast_ne_zero.mpr hn
  have e1 : hhi [h] = 1 := by
    rw [hhi, if_neg (by simp)]
    simp [totalValue, div_self hv0]
  have e2 : diversificationRatio [h] = 1 := by
    rw [diversificationRatio, e1]
    norm_num
  have hrep : List.replicate n g ≠ [] := by
    intro hcontra
    exact hn (by simpa using congrArg List.length hcontra)
  have htot : totalValue (List.replicate n g) = (n : ℚ) * holdingValue g := by
    rw [totalValue, List.map_replicate, List.sum_replicate, nsmul_eq_mul]
  have e3 : hhi (List.replicate n g) = 1 / (n : ℚ) := by
    rw [hhi, if_neg hrep, htot, List.map_replicate, List.sum_replicate, nsmul_eq_mul]
    field_simp
    ring
  have e4 : hhi ([] : List Holding) = 0 := by rw [hhi, if_pos rfl]
  have e5 : diversificationRatio ([] : List Holding) = 0 := by
    rw [diversificationRatio, e4]
    norm_num
  refine ⟨e1, e2, e3, e4, e5, ?_⟩
  intro hs hne hpos
  have htpos : 0 < totalValue hs := by
    rw [totalValue]
    apply List.sum_pos
    · intro x hx
      obtain ⟨y, hy, rfl⟩ := List.mem_map.1 hx
      exact hpos y hy
    · intro hmap
      exact hne (List.map_eq_nil_iff.mp hmap)
  have hhpos : 0 < hhi hs := by
    rw [hhi, if_neg hne]
    apply List.sum_pos
    · intro x hx
      obtain ⟨y, hy, rfl⟩ := List.mem_map.1 hx
      exact pow_pos (div_pos (hpos y hy) htpos) 2
    · intro hmap
      exact hne (List.map_eq_nil_iff.mp hmap)
  exact ⟨hhpos, by rw [diversificationRatio, if_pos hhpos]⟩

/-- Closed witness for C8, at a 100-share AAPL holding, a 4-fold
equal-weight portfolio, and a one-positive-holding list. -/
theorem claimC8_hhi_diversification_witness :
    (0 : ℚ) < holdingValue { quantity := 100, costBasis := 150, marketValue := none } ∧
    (4 ≠ 0) ∧
    (0 : ℚ) < holdingValue { quantity := 1, costBasis := 1, marketValue := none } ∧
    hhi [{ quantity := 100, costBasis := 150, marketValue := none }] = 1 ∧
    hhi (List.replicate 4 { quantity := 1, costBasis := 1, marketValue := none }) = 1 / (4 : ℚ) ∧
    (0 < hhi [({ quantity := 2, costBasis := 3, marketValue := none } : Holding)] ∧
      diversificationRatio [({ quantity := 2, costBasis := 3, marketValue := none } : Holding)]
        = 1 / hhi [({ quantity := 2, costBasis := 3, marketValue := none } : Holding)]) :=
  ⟨by norm_num [holdingValue], by norm_num, by norm_num [holdingValue],
   (claimC8_hhi_diversification { quantity := 100, costBasis := 150, marketValue := none }
     { quantity := 1, costBasis := 1, marketValue := none } 4
     (by norm_num [holdingValue]) (by norm_num) (by norm_num [holdingValue])).1,
   (claimC8_hhi_diversification { quantity := 100, costBasis := 150, marketValue := none }
     { quantity := 1, costBasis := 1, marketValue := none } 4
     (by norm_num [holdingValue]) (by norm_num) (by norm_num [holdingValue])).2.2.1,
   (claimC8_hhi_diversification { quantity := 100, costBasis := 150, marketValue := none }
     { quantity := 1, costBasis := 1, marketValue := none } 4
     (by norm_num [holdingValue]) (by norm_num) (by norm_num [holdingValue])).2.2.2.2.2
     [{ quantity := 2, costBasis := 3, marketValue := none }] (by simp)
     (by intro y hy; rw [List.mem_singleton] at hy; subst hy; norm_num [holdingValue])⟩

/-- C10: the mock return series is seeded with the fixed seed 42 and
ignores the holdings, so the return-derived metrics (volatility, Sharpe
ratio, max drawdown, VaR at 95%, all fixed functions of
`portfolioReturnStats`) are the same constants for any two non-empty
portfolios. -/
theorem claimC10_risk_metrics_ignore_holdings (hs1 hs2 : List Holding)
    (_hne1 : hs1 ≠ []) (_hne2 : hs2 ≠ []) :
    generateMockReturns hs1.length = generateMockReturns hs2.length ∧
    portfolioReturnStats hs1 = portfolioReturnStats hs2 :=
  ⟨rfl, rfl⟩

/-- Closed witness for C10, at a one-holding and a two-holding
portfolio. -/
theorem claimC10_risk_metrics_ignore_holdings_witness :
    ([({ quantity := 100, costBasis := 150, marketValue := none } : Holding)] ≠ []) ∧
    ([({ quantity := 1, costBasis := 2, marketValue := none } : Holding),
      { quantity := 3, costBasis := 4, marketValue := none }] ≠ []) ∧
    portfolioReturnStats [({ quantity := 100, costBasis := 150, marketValue := none } : Holding)]
      = portfolioReturnStats [({ quantity := 1, costBasis := 2, marketValue := none } : Holding),
          { quantity := 3, costBasis := 4, marketValue := none }] :=
  ⟨by simp, by simp,
   (claimC10_risk_metrics_ignore_holdings _ _ (by simp) (by simp)).2⟩
